import Mathlib

/-!
Verification of the step-size adaptation strategies of
`pyrl/agents/stepsizes.py` against their specification.

Embedding conventions:
* numpy arrays of the weight shape are modelled flattened, as `Fin n → ℚ`
  (the Python code only ever combines them componentwise or through dot
  products, so flattening loses nothing);
* float arithmetic is modelled by exact rational arithmetic.  Where the
  Python code calls an irrational primitive (`numpy.sqrt`, `numpy.exp`,
  `numpy.linalg.norm`, `scipy.linalg.sqrtm`, the Sherman-Morrison helper
  `pyrl.misc.matrix.SMInv` which lives outside this file's sources), the
  model takes that primitive as an explicit function argument, so every
  theorem quantifies over all possible interpretations of it;
* the agent attributes the strategies read (`self.alpha`, `self.gamma`,
  `self.traces`, `self.weights`) are passed in explicitly;
* `params.setdefault` resolution is modelled by passing the resolved
  parameter values to `init_stepsize` directly;
* IEEE non-finiteness (NaN/Inf) is modelled separately, in the `FF`
  development further below, where a float is `Option ℚ` and `none`
  stands for a non-finite value.
-/

/-- Flattened weight-shaped arrays. -/
abbrev V (n : ℕ) : Type := Fin n → ℚ

/-- Componentwise product of two arrays (numpy `*`). -/
def vmul {n : ℕ} (a b : V n) : V n := fun i => a i * b i

/-- Scalar times array (numpy broadcasting). -/
def vsmul {n : ℕ} (c : ℚ) (a : V n) : V n := fun i => c * a i

/-- Constant array (`numpy.ones(shape) * c`, `fill(c)`). -/
def vconst (n : ℕ) (c : ℚ) : V n := fun _ => c

/-- All-zero array (`numpy.zeros(shape)`). -/
def vzero (n : ℕ) : V n := vconst n 0

/-- Dot product of two flattened arrays (`numpy.dot`). -/
def vdot {n : ℕ} (a b : V n) : ℚ := ∑ i, a i * b i

/-- One `rescale_update` call's worth of inputs, bundled.  `phi_t`,
`phi_tp`, `delta`, `reward`, `dd` (= `descent_direction`) are the call
arguments; `traces` is the base agent's eligibility-trace array, read by
RProp and AlphaBounds as `self.traces` and free to change between calls. -/
structure RLIn (n : ℕ) where
  phi_t : V n
  phi_tp : V n
  delta : ℚ
  reward : ℚ
  dd : V n
  traces : V n

/-- An all-zero input bundle, used to instantiate concrete runs. -/
def zeroIn (n : ℕ) : RLIn n :=
  ⟨vzero n, vzero n, 0, 0, vzero n, vzero n⟩

namespace AdaptiveStepSize

/-- State of the base `AdaptiveStepSize` ("Fixed StepSize") strategy:
only the `step_sizes` array. -/
structure State (n : ℕ) where
  step_sizes : V n

/-- `AdaptiveStepSize.init_stepsize`: `step_sizes = ones(shape) * alpha`. -/
def init_stepsize (n : ℕ) (alpha : ℚ) : State n :=
  ⟨vconst n alpha⟩

/-- `AdaptiveStepSize.rescale_update`: returns `step_sizes *
descent_direction`; no state is written. -/
def rescale_update {n : ℕ} (s : State n) (_phi_t _phi_tp : V n)
    (_delta _reward : ℚ) (dd : V n) : State n × V n :=
  (s, vmul s.step_sizes dd)

/-- `rescale_update` on a bundled input. -/
def step {n : ℕ} (s : State n) (inp : RLIn n) : State n × V n :=
  rescale_update s inp.phi_t inp.phi_tp inp.delta inp.reward inp.dd

end AdaptiveStepSize

namespace GHS

/-- State of the GHS strategy.  `last_update` is allocated by
`init_stepsize` and never read or written afterwards. -/
structure State (n : ℕ) where
  step_sizes : V n
  last_update : V n
  ghs_param : ℚ
  ghs_counter : ℕ

/-- `GHS.init_stepsize` with resolved parameter `ghs_a` (default 10.0). -/
def init_stepsize (n : ℕ) (alpha ghs_a : ℚ) : State n :=
  ⟨vconst n alpha, vzero n, ghs_a, 1⟩

/-- `GHS.rescale_update`: fill `step_sizes` with
`alpha * a / (a + counter - 1)`, bump the counter, return the product
with the descent direction. -/
def rescale_update {n : ℕ} (alpha : ℚ) (s : State n) (_phi_t _phi_tp : V n)
    (_delta _reward : ℚ) (dd : V n) : State n × V n :=
  let fill := alpha * s.ghs_param / (s.ghs_param + (s.ghs_counter : ℚ) - 1)
  let s' : State n :=
    ⟨vconst n fill, s.last_update, s.ghs_param, s.ghs_counter + 1⟩
  (s', vmul s'.step_sizes dd)

/-- `rescale_update` on a bundled input. -/
def step {n : ℕ} (alpha : ℚ) (s : State n) (inp : RLIn n) : State n × V n :=
  rescale_update alpha s inp.phi_t inp.phi_tp inp.delta inp.reward inp.dd

/-- State after `k` calls of `rescale_update` on the input stream `ins`. -/
def stateAt {n : ℕ} (ins : ℕ → RLIn n) (alpha ghs_a : ℚ) : ℕ → State n
  | 0 => init_stepsize n alpha ghs_a
  | k + 1 => (step alpha (stateAt ins alpha ghs_a k) (ins k)).1

/-- Output of the `(k+1)`-th `rescale_update` call on the stream `ins`. -/
def outAt {n : ℕ} (ins : ℕ → RLIn n) (alpha ghs_a : ℚ) (k : ℕ) : V n :=
  (step alpha (stateAt ins alpha ghs_a k) (ins k)).2

end GHS

namespace McClains

/-- State of the McClains strategy; `alpha` is the agent's `self.alpha`,
which this strategy overwrites on every call. -/
structure State (n : ℕ) where
  alpha : ℚ
  step_sizes : V n
  mcclain_param : ℚ

/-- `McClains.init_stepsize` with resolved parameter `mcclain_a`
(default 0.01): if `alpha < mcclain_a` the two are swapped, and
`mcclain_param` picks up the swapped `params['mcclain_a']`. -/
def init_stepsize (n : ℕ) (alpha mcclain_a : ℚ) : State n :=
  if alpha < mcclain_a then
    ⟨mcclain_a, vconst n mcclain_a, alpha⟩
  else
    ⟨alpha, vconst n alpha, mcclain_a⟩

/-- `McClains.rescale_update`: fill `step_sizes` with the current
`alpha`, then set `alpha /= (1 + alpha - mcclain_param)`. -/
def rescale_update {n : ℕ} (s : State n) (_phi_t _phi_tp : V n)
    (_delta _reward : ℚ) (dd : V n) : State n × V n :=
  let filled := vconst n s.alpha
  let s' : State n :=
    ⟨s.alpha / (1 + s.alpha - s.mcclain_param), filled, s.mcclain_param⟩
  (s', vmul filled dd)

/-- `rescale_update` on a bundled input. -/
def step {n : ℕ} (s : State n) (inp : RLIn n) : State n × V n :=
  rescale_update s inp.phi_t inp.phi_tp inp.delta inp.reward inp.dd

/-- State after `k` calls of `rescale_update` on the input stream `ins`. -/
def stateAt {n : ℕ} (ins : ℕ → RLIn n) (alpha mcclain_a : ℚ) : ℕ → State n
  | 0 => init_stepsize n alpha mcclain_a
  | k + 1 => (step (stateAt ins alpha mcclain_a k) (ins k)).1

/-- The scalar factor applied on the `(k+1)`-th call: the value of
`alpha` filled into `step_sizes` by that call. -/
def factorAt {n : ℕ} (ins : ℕ → RLIn n) (alpha mcclain_a : ℚ) (k : ℕ) : ℚ :=
  (stateAt ins alpha mcclain_a k).alpha

end McClains

namespace STC

/-- State of the Search-Then-Converge strategy. -/
structure State (n : ℕ) where
  alpha : ℚ
  step_sizes : V n
  stc_a0 : ℚ
  stc_c : ℚ
  stc_N : ℚ
  stc_counter : ℚ

/-- `STC.init_stepsize` with resolved parameters `stc_c` (default 1e6)
and `stc_N` (default 5e5). -/
def init_stepsize (n : ℕ) (alpha stc_c stc_N : ℚ) : State n :=
  ⟨alpha, vconst n alpha, alpha, stc_c, stc_N, 0⟩

/-- `STC.rescale_update`: the two-term rational update of `alpha`, fill,
counter bump. -/
def rescale_update {n : ℕ} (s : State n) (_phi_t _phi_tp : V n)
    (_delta _reward : ℚ) (dd : V n) : State n × V n :=
  let a1 := s.alpha * (1 + (s.stc_c * s.stc_counter) / (s.stc_a0 * s.stc_N))
  let a2 := a1 / (1 + (s.stc_c * s.stc_counter) / (s.stc_a0 * s.stc_N)
      + s.stc_N * (s.stc_counter ^ 2) / s.stc_N ^ 2)
  let s' : State n :=
    ⟨a2, vconst n a2, s.stc_a0, s.stc_c, s.stc_N, s.stc_counter + 1⟩
  (s', vmul s'.step_sizes dd)

end STC

namespace RProp

/-- State of the RProp strategy. -/
structure State (n : ℕ) where
  step_sizes : V n
  last_update : V n
  eta_low : ℚ
  eta_high : ℚ

/-- `RProp.init_stepsize` with resolved parameters `rprop_eta_low`
(default 0.01) and `rprop_eta_high` (default 1.2). -/
def init_stepsize (n : ℕ) (alpha eta_low eta_high : ℚ) : State n :=
  ⟨vconst n alpha, vzero n, eta_low, eta_high⟩

/-- `RProp.rescale_update`: fill with `eta_high`, overwrite with
`eta_low` at every index where `last_update * delta * traces <= 0`
(`sign_changes`), return the product with the descent direction.
`traces` is the base agent's `self.traces`.  `last_update` is not
written. -/
def rescale_update {n : ℕ} (traces : V n) (s : State n)
    (_phi_t _phi_tp : V n) (delta _reward : ℚ) (dd : V n) : State n × V n :=
  let filled : V n := fun i =>
    if s.last_update i * delta * traces i ≤ 0 then s.eta_low else s.eta_high
  let s' : State n := ⟨filled, s.last_update, s.eta_low, s.eta_high⟩
  (s', vmul s'.step_sizes dd)

/-- `rescale_update` on a bundled input. -/
def step {n : ℕ} (s : State n) (inp : RLIn n) : State n × V n :=
  rescale_update inp.traces s inp.phi_t inp.phi_tp inp.delta inp.reward inp.dd

/-- State after `k` calls of `rescale_update` on the input stream `ins`. -/
def stateAt {n : ℕ} (ins : ℕ → RLIn n) (alpha eta_low eta_high : ℚ) :
    ℕ → State n
  | 0 => init_stepsize n alpha eta_low eta_high
  | k + 1 => (step (stateAt ins alpha eta_low eta_high k) (ins k)).1

/-- Output of the `(k+1)`-th `rescale_update` call on the stream `ins`. -/
def outAt {n : ℕ} (ins : ℕ → RLIn n) (alpha eta_low eta_high : ℚ)
    (k : ℕ) : V n :=
  (step (stateAt ins alpha eta_low eta_high k) (ins k)).2

end RProp

namespace Autostep

/-- State of the Autostep strategy; `h` and `v` are flattened. -/
structure State (n : ℕ) where
  step_sizes : V n
  h : V n
  v : V n
  mu : ℚ
  tau : ℚ

/-- `Autostep.init_stepsize` with resolved parameters `autostep_mu`
(default 1e-2) and `autostep_tau` (default 1e4). -/
def init_stepsize (n : ℕ) (alpha mu tau : ℚ) : State n :=
  ⟨vconst n alpha, vzero n, vzero n, mu, tau⟩

/-- `Autostep.rescale_update`.  `expF` models `numpy.exp`; the masked
assignment `alphas[v_not_zero] *= exp(...)` becomes a componentwise
conditional. -/
def rescale_update {n : ℕ} (expF : ℚ → ℚ) (s : State n)
    (phi_t _phi_tp : V n) (delta _reward : ℚ) (dd : V n) : State n × V n :=
  let x := phi_t
  let deltaTerm : V n := fun i => delta * x i * s.h i
  let alphas := s.step_sizes
  let v1 : V n := fun i =>
    max |deltaTerm i|
      (s.v i + (1 / s.tau) * alphas i * (x i) ^ 2 * (|deltaTerm i| - s.v i))
  let alphas1 : V n := fun i =>
    if v1 i ≠ 0 then alphas i * expF (s.mu * deltaTerm i / v1 i) else alphas i
  let M := max (vdot alphas1 (fun i => (x i) ^ 2)) 1
  let step1 : V n := fun i => alphas1 i / M
  let plus_note : V n := fun i => 1 - step1 i * (x i) ^ 2
  let h1 : V n := fun i => s.h i * plus_note i + step1 i * delta * x i
  (⟨step1, h1, v1, s.mu, s.tau⟩, vmul step1 dd)

end Autostep

namespace AlphaBounds

/-- State of the AlphaBounds strategy; `alpha` is the agent's
`self.alpha`, reinitialized to 1.0 by `init_stepsize`. -/
structure State (n : ℕ) where
  alpha : ℚ
  step_sizes : V n

/-- `AlphaBounds.init_stepsize`: `alpha = 1.0`, `step_sizes = ones`. -/
def init_stepsize (n : ℕ) : State n :=
  ⟨1, vconst n 1⟩

/-- `AlphaBounds.rescale_update`:
`alpha = min(alpha, 1/|dot(traces, gamma*phi_tp - phi_t)|)` then fill.
In the float code a zero `denomTerm` gives `1/0 = +Inf` and
`min(alpha, +Inf) = alpha`, so the zero-denominator case is modelled as
keeping `alpha`.  `gamma` is the agent's `self.gamma` and `traces` its
`self.traces`. -/
def rescale_update {n : ℕ} (gamma : ℚ) (traces : V n) (s : State n)
    (phi_t phi_tp : V n) (_delta _reward : ℚ) (dd : V n) : State n × V n :=
  let deltaPhi : V n := fun i => gamma * phi_tp i - phi_t i
  let denomTerm := vdot traces deltaPhi
  let alpha1 := if denomTerm = 0 then s.alpha else min s.alpha (1 / |denomTerm|)
  let s' : State n := ⟨alpha1, vconst n alpha1⟩
  (s', vmul s'.step_sizes dd)

/-- `rescale_update` on a bundled input. -/
def step {n : ℕ} (gamma : ℚ) (s : State n) (inp : RLIn n) : State n × V n :=
  rescale_update gamma inp.traces s inp.phi_t inp.phi_tp inp.delta inp.reward
    inp.dd

/-- State after `k` calls of `rescale_update` on the input stream `ins`. -/
def stateAt {n : ℕ} (gamma : ℚ) (ins : ℕ → RLIn n) : ℕ → State n
  | 0 => init_stepsize n
  | k + 1 => (step gamma (stateAt gamma ins k) (ins k)).1

end AlphaBounds

/-- Square matrices of the flattened weight size. -/
abbrev Mat (n : ℕ) : Type := Fin n → Fin n → ℚ

/-- Matrix-vector product (`numpy.dot` of a matrix and a vector). -/
def matvec {n : ℕ} (A : Mat n) (x : V n) : V n := fun i => ∑ j, A i j * x j

namespace AdagradFull

/-- State of the full-matrix Adagrad strategy; `h` is the `size x size`
preconditioner. -/
structure State (n : ℕ) where
  step_sizes : V n
  h : Mat n
  adagrad_counter : ℚ

/-- `AdagradFull.init_stepsize` with resolved parameter
`adagrad_precond` (default 0.001): `h = eye(size) * precond`. -/
def init_stepsize (n : ℕ) (alpha precond : ℚ) : State n :=
  ⟨vconst n alpha, fun i j => if i = j then precond else 0, 0⟩

/-- `AdagradFull.rescale_update`.  `smInvF` models
`pyrl.misc.matrix.SMInv` (the Sherman-Morrison rank-1 update helper,
whose source is outside this file's repository snapshot) and `sqrtmF`
models `numpy.real(scipy.linalg.sqrtm(.))`; `sqrtF` models
`numpy.sqrt` on the scalar counter.  All three are quantified over, so
the theorems hold for every interpretation of them. -/
def rescale_update {n : ℕ} (smInvF : Mat n → V n → V n → ℚ → Mat n)
    (sqrtmF : Mat n → Mat n) (sqrtF : ℚ → ℚ) (s : State n)
    (_phi_t _phi_tp : V n) (_delta _reward : ℚ) (dd : V n) : State n × V n :=
  let counter1 := s.adagrad_counter + 1
  let g := dd
  let h1 := smInvF s.h g g 1
  let dd1 : V n :=
    if counter1 > 0 then fun i => sqrtF counter1 * matvec (sqrtmF h1) dd i
    else dd
  (⟨s.step_sizes, h1, counter1⟩, vmul s.step_sizes dd1)

end AdagradFull

namespace AdagradDiagonal

/-- State of the diagonal Adagrad strategy. -/
structure State (n : ℕ) where
  step_sizes : V n
  h : V n
  adagrad_counter : ℚ

/-- `AdagradDiagonal.init_stepsize`. -/
def init_stepsize (n : ℕ) (alpha : ℚ) : State n :=
  ⟨vconst n alpha, vzero n, 0⟩

/-- `AdagradDiagonal.rescale_update`.  `sqrtF` models `numpy.sqrt`.
When `counter > 1` the step sizes are refilled with `alpha` and, at
every index with a nonzero accumulator, multiplied by
`sqrt(counter)/sqrt(h)`; on the first call (`counter == 1`) the branch
is skipped and `step_sizes` keeps its prior value. -/
def rescale_update {n : ℕ} (sqrtF : ℚ → ℚ) (alpha : ℚ) (s : State n)
    (_phi_t _phi_tp : V n) (_delta _reward : ℚ) (dd : V n) : State n × V n :=
  let counter1 := s.adagrad_counter + 1
  let h1 : V n := fun i => s.h i + (dd i) ^ 2
  let step1 : V n :=
    if counter1 > 1 then
      fun i =>
        if h1 i ≠ 0 then alpha * (sqrtF counter1 / sqrtF (h1 i)) else alpha
    else s.step_sizes
  (⟨step1, h1, counter1⟩, vmul step1 dd)

/-- `rescale_update` on a bundled input. -/
def step {n : ℕ} (sqrtF : ℚ → ℚ) (alpha : ℚ) (s : State n) (inp : RLIn n) :
    State n × V n :=
  rescale_update sqrtF alpha s inp.phi_t inp.phi_tp inp.delta inp.reward inp.dd

/-- State after `k` calls of `rescale_update` on the input stream `ins`. -/
def stateAt {n : ℕ} (sqrtF : ℚ → ℚ) (ins : ℕ → RLIn n) (alpha : ℚ) :
    ℕ → State n
  | 0 => init_stepsize n alpha
  | k + 1 => (step sqrtF alpha (stateAt sqrtF ins alpha k) (ins k)).1

end AdagradDiagonal

namespace AlmeidaAdaptive

/-- State of the Almeida strategy; `prev_grad` is `None` until the
first call stores the first gradient. -/
structure State (n : ℕ) where
  step_sizes : V n
  prev_grad : Option (V n)
  v : V n
  almeida_gamma : ℚ
  almeida_stepsize : ℚ

/-- `AlmeidaAdaptive.init_stepsize` with resolved parameters
`almeida_gamma` (default 0.999) and `almeida_stepsize` (default 1e-5);
`v = ones(size)`. -/
def init_stepsize (n : ℕ) (alpha gamma_a stepsize_a : ℚ) : State n :=
  ⟨vconst n alpha, none, vconst n 1, gamma_a, stepsize_a⟩

/-- `AlmeidaAdaptive.rescale_update`: exponential second-moment trace
`v`, and from the second call on a multiplicative step-size update with
`vbar` guarding zero entries of `v` by 1.0. -/
def rescale_update {n : ℕ} (s : State n) (_phi_t _phi_tp : V n)
    (_delta _reward : ℚ) (dd : V n) : State n × V n :=
  let v1 : V n := fun i =>
    s.almeida_gamma * s.v i + (1 - s.almeida_gamma) * (dd i) ^ 2
  match s.prev_grad with
  | none =>
      (⟨s.step_sizes, some dd, v1, s.almeida_gamma, s.almeida_stepsize⟩,
        vmul s.step_sizes dd)
  | some pg =>
      let vbar : V n := fun i => if v1 i = 0 then 1 else v1 i
      let step1 : V n := fun i =>
        s.step_sizes i * (1 + s.almeida_stepsize * vdot pg dd / vbar i)
      (⟨step1, some dd, v1, s.almeida_gamma, s.almeida_stepsize⟩,
        vmul step1 dd)

end AlmeidaAdaptive

namespace VSGDQ

/-- State of the vSGD strategy over exact rationals; `slow_start` is the
integer counter `vsgd_slowstart`. -/
structure State (n : ℕ) where
  step_sizes : V n
  g : V n
  v : V n
  h : V n
  t : V n
  slow_start : ℤ

/-- `vSGD.init_stepsize` with resolved parameters `vsgd_initmeta`
(default 100) and `vsgd_slowstart` (default 50). -/
def init_stepsize (n : ℕ) (alpha initmeta : ℚ) (slowstart : ℤ) : State n :=
  ⟨vconst n alpha, vzero n, vzero n, vzero n, vconst n initmeta, slowstart⟩

/-- numpy `.clip(max=1.0)`, componentwise. -/
def clipMax1 (q : ℚ) : ℚ := min q 1

/-- numpy `.clip(1e-15, 1.0)`, componentwise. -/
def clipMeta (q : ℚ) : ℚ := min (max q (1 / 10 ^ 15)) 1

/-- `vSGD.rescale_update` over exact rationals (the companion `FF`
model below additionally tracks IEEE non-finiteness).  `gamma` is the
agent's `self.gamma`. -/
def rescale_update {n : ℕ} (gamma : ℚ) (s : State n) (phi_t phi_tp : V n)
    (_delta _reward : ℚ) (dd : V n) : State n × V n :=
  let est_hessian : V n := fun i => (gamma * phi_tp i - phi_t i) ^ 2
  let g1 : V n := fun i => s.g i * (-(1 / s.t i - 1)) + (1 / s.t i) * dd i
  let v1 : V n := fun i => s.v i * (-(1 / s.t i - 1)) + (1 / s.t i) * (dd i) ^ 2
  let h1 : V n := fun i =>
    s.h i * (-(1 / s.t i - 1)) + (1 / s.t i) * est_hessian i
  let denom : V n := fun i => if h1 i * v1 i = 0 then 1 else h1 i * v1 i
  let step1 : V n := fun i => clipMax1 ((g1 i) ^ 2 / denom i)
  let t1 : V n :=
    if s.slow_start ≤ 0 then
      fun i => s.t i * clipMeta (-((g1 i) ^ 2 / v1 i - 1)) + 1
    else s.t
  (⟨step1, g1, v1, h1, t1, s.slow_start - 1⟩, vmul step1 dd)

end VSGDQ

namespace InvMaxEigen

/-- State of the InvMaxEigen strategy. -/
structure State (n : ℕ) where
  step_sizes : V n
  est_eigvector : V n

/-- `InvMaxEigen.init_stepsize`: the eigenvector estimate is drawn from
`numpy.random.normal` and normalized; the draw is passed in as `e0`
(randomness is outside the shallow embedding) and `normF` models
`numpy.linalg.norm`. -/
def init_stepsize (n : ℕ) (normF : V n → ℚ) (alpha : ℚ) (e0 : V n) : State n :=
  ⟨vconst n alpha, fun i => e0 i / normF e0⟩

/-- `InvMaxEigen.rescale_update` with resolved parameters `lecun_gamma`
(default 0.01), `lecun_alpha` (default 0.01) and `lecun_threshold`
(default 0.001).  `normF` models `numpy.linalg.norm`, `fresh` the
`numpy.random.normal` draw used if the estimate is reset, `weights` the
agent's `self.weights` and `gamma` its `self.gamma`. -/
def rescale_update {n : ℕ} (normF : V n → ℚ) (fresh : V n)
    (lecun_gamma lecun_alpha threshold : ℚ) (weights : V n) (gamma : ℚ)
    (s : State n) (phi_t phi_tp : V n) (_delta reward : ℚ) (dd : V n) :
    State n × V n :=
  let prevEigValue := normF s.est_eigvector
  let perterb_weights : V n := fun i =>
    weights i + lecun_alpha * (s.est_eigvector i / prevEigValue)
  let perterbed_delta :=
    vdot perterb_weights (fun i => gamma * phi_tp i - phi_t i) + reward
  let pert_gradient : V n := fun i =>
    -perterbed_delta * (phi_t i - gamma * phi_tp i)
  let gradient : V n := fun i => -dd i
  let e1 : V n := fun i =>
    s.est_eigvector i * (1 - lecun_gamma)
      + (lecun_gamma / lecun_alpha) * (pert_gradient i - gradient i)
  let update_ratio := |prevEigValue - normF e1| / prevEigValue
  if update_ratio ≤ threshold then
    (⟨vconst n (1 / normF e1), fun i => fresh i / normF fresh⟩,
      vmul (vconst n (1 / normF e1)) dd)
  else
    (⟨s.step_sizes, e1⟩, vmul s.step_sizes dd)

end InvMaxEigen

/-!
Non-finiteness tracking model of vSGD.  A float is `Option ℚ`: `some q`
is the finite value `q`, `none` is a non-finite value (NaN or Inf).
Arithmetic propagates `none`; a division whose denominator is zero (or
whose operands are non-finite) yields `none`.  An IEEE comparison with a
NaN operand is false, matched here by `= some 0` tests being false on
`none`; IEEE `clip` maps NaN to NaN, matched by `Option.map`.  This
abstraction identifies Inf with NaN, which is exact on any trace whose
only zero-denominator divisions are `0/0` (true of the trace evaluated
below, where the non-finite value born at `0/0` then only flows through
`*`, `+`, `-`, `/`, `clip` — all NaN-preserving in IEEE). -/
abbrev FF : Type := Option ℚ

/-- A finite float. -/
def fof (q : ℚ) : FF := some q

/-- Float negation. -/
def fneg (a : FF) : FF := a.map fun x => -x

/-- Float addition. -/
def fadd (a b : FF) : FF := a.bind fun x => b.map fun y => x + y

/-- Float subtraction. -/
def fsub (a b : FF) : FF := a.bind fun x => b.map fun y => x - y

/-- Float multiplication. -/
def fmul (a b : FF) : FF := a.bind fun x => b.map fun y => x * y

/-- Float division: non-finite on a zero denominator. -/
def fdiv (a b : FF) : FF :=
  a.bind fun x => b.bind fun y => if y = 0 then none else some (x / y)

/-- Float squaring (`** 2`). -/
def fsq (a : FF) : FF := fmul a a

/-- numpy `.clip(max=1.0)` on a float. -/
def fclipMax1 (a : FF) : FF := a.map fun x => min x 1

/-- numpy `.clip(1e-15, 1.0)` on a float. -/
def fclipMeta (a : FF) : FF := a.map fun x => min (max x (1 / 10 ^ 15)) 1

namespace VSGDF

/-- State of vSGD over non-finiteness-tracking floats. -/
structure State (n : ℕ) where
  step_sizes : Fin n → FF
  g : Fin n → FF
  v : Fin n → FF
  h : Fin n → FF
  t : Fin n → FF
  slow_start : ℤ

/-- `vSGD.init_stepsize` over tracking floats; all initial state is
finite. -/
def init_stepsize (n : ℕ) (alpha initmeta : ℚ) (slowstart : ℤ) : State n :=
  ⟨fun _ => fof alpha, fun _ => fof 0, fun _ => fof 0, fun _ => fof 0,
    fun _ => fof initmeta, slowstart⟩

/-- `vSGD.rescale_update` over tracking floats, line for line the same
computation as `VSGDQ.rescale_update`.  The `denom[denom==0] = 1.0`
guard tests `= some 0`, which is false on a non-finite value, exactly
as `NaN == 0` is false; the meta-rate update `t *= clip(-((g**2/v)-1))`
divides by `v` with no such guard. -/
def rescale_update {n : ℕ} (gamma : ℚ) (s : State n)
    (phi_t phi_tp : Fin n → FF) (_delta _reward : FF) (dd : Fin n → FF) :
    State n × (Fin n → FF) :=
  let est_hessian : Fin n → FF := fun i =>
    fsq (fsub (fmul (fof gamma) (phi_tp i)) (phi_t i))
  let g1 : Fin n → FF := fun i =>
    fadd (fmul (s.g i) (fneg (fsub (fdiv (fof 1) (s.t i)) (fof 1))))
      (fmul (fdiv (fof 1) (s.t i)) (dd i))
  let v1 : Fin n → FF := fun i =>
    fadd (fmul (s.v i) (fneg (fsub (fdiv (fof 1) (s.t i)) (fof 1))))
      (fmul (fdiv (fof 1) (s.t i)) (fsq (dd i)))
  let h1 : Fin n → FF := fun i =>
    fadd (fmul (s.h i) (fneg (fsub (fdiv (fof 1) (s.t i)) (fof 1))))
      (fmul (fdiv (fof 1) (s.t i)) (est_hessian i))
  let denom : Fin n → FF := fun i =>
    if fmul (h1 i) (v1 i) = some 0 then fof 1 else fmul (h1 i) (v1 i)
  let step1 : Fin n → FF := fun i => fclipMax1 (fdiv (fsq (g1 i)) (denom i))
  let t1 : Fin n → FF :=
    if s.slow_start ≤ 0 then
      fun i =>
        fadd (fmul (s.t i)
          (fclipMeta (fneg (fsub (fdiv (fsq (g1 i)) (v1 i)) (fof 1)))))
          (fof 1)
    else s.t
  (⟨step1, g1, v1, h1, t1, s.slow_start - 1⟩, fun i => fmul (step1 i) (dd i))

end VSGDF

/-- A PyRL agent or step-size class as `genAdaptiveAgent` sees it: an
identifying `name` and a `randomize_parameters` entry point.
`randomize_parameters(self, **args)` reads the keyword arguments,
mutates `self` (its `params` dictionary) and returns the ordered list of
resolved values; it is modelled state-passing, `σ` being the type of
`self`'s mutable state and `Args` the keyword-argument mapping. -/
structure AgentClass (Args σ : Type) where
  name : String
  randomize_parameters : Args → σ → List ℚ × σ

/-- `genAdaptiveAgent`: the combined class's `name` is
`"Adaptive (" + stepsize_class.name + ") " + agent_class.name`, and its
`randomize_parameters` runs the base agent class's randomization first,
then the step-size class's on the resulting `self`, and returns the
first value list followed by the second. -/
def genAdaptiveAgent {Args σ : Type} (stepsize_class agent_class : AgentClass Args σ) :
    AgentClass Args σ where
  name := "Adaptive (" ++ stepsize_class.name ++ ") " ++ agent_class.name
  randomize_parameters := fun args s =>
    let r1 := agent_class.randomize_parameters args s
    let r2 := stepsize_class.randomize_parameters args r1.2
    (r1.1 ++ r2.1, r2.2)

/-- Multiplying any step-size array by an all-zero descent direction
gives the all-zero array. -/
theorem vmul_vzero {n : ℕ} (a : V n) : vmul a (vzero n) = vzero n := by
  funext i
  simp [vmul, vzero, vconst]

/-- C9: the Fixed strategy (`AdaptiveStepSize`) leaves its state
unchanged on every `rescale_update` call with every input, returns
exactly `alpha * descent_direction` after `init_stepsize`, and on weight
shape `(3,)` with `alpha = 0.1` maps `descent_direction = [1,2,3]` to
`[0.1, 0.2, 0.3]`. -/
theorem C9_fixed_rescale :
    (∀ (n : ℕ) (s : AdaptiveStepSize.State n) (phi_t phi_tp : V n)
        (delta reward : ℚ) (dd : V n),
      (AdaptiveStepSize.rescale_update s phi_t phi_tp delta reward dd).1 = s)
    ∧ (∀ (n : ℕ) (alpha : ℚ) (phi_t phi_tp : V n) (delta reward : ℚ) (dd : V n),
      (AdaptiveStepSize.rescale_update (AdaptiveStepSize.init_stepsize n alpha)
        phi_t phi_tp delta reward dd).2 = fun i => alpha * dd i)
    ∧ (AdaptiveStepSize.rescale_update (AdaptiveStepSize.init_stepsize 3 (1/10))
        (vzero 3) (vzero 3) 0 0 ![1, 2, 3]).2 = ![1/10, 1/5, 3/10] := by
  refine ⟨fun n s _ _ _ _ _ => rfl, fun n alpha _ _ _ _ dd => rfl, ?_⟩
  funext i
  fin_cases i <;>
    norm_num [AdaptiveStepSize.rescale_update, AdaptiveStepSize.init_stepsize,
      vmul, vconst]

/-- C5: on every RProp `rescale_update` call, every component `i` with
`last_update[i] * delta * traces[i] <= 0` receives scale exactly
`eta_low` and every other component exactly `eta_high`, the returned
update being that scale times `descent_direction` componentwise. -/
theorem C5_rprop_sign_test :
    ∀ (n : ℕ) (traces : V n) (s : RProp.State n) (phi_t phi_tp : V n)
      (delta reward : ℚ) (dd : V n),
      ((RProp.rescale_update traces s phi_t phi_tp delta reward dd).1.step_sizes
          = fun i => if s.last_update i * delta * traces i ≤ 0 then s.eta_low
            else s.eta_high)
      ∧ ((RProp.rescale_update traces s phi_t phi_tp delta reward dd).2
          = fun i => (if s.last_update i * delta * traces i ≤ 0 then s.eta_low
            else s.eta_high) * dd i) :=
  fun _ _ _ _ _ _ _ _ => ⟨rfl, rfl⟩

/-- C10: for every step-size class and base agent class,
`genAdaptiveAgent` produces a type named exactly
`"Adaptive (" + strategy name + ") " + agent name` whose
`randomize_parameters` runs the base agent's randomization first and the
strategy's second and returns the base agent's value list followed by
the strategy's. -/
theorem C10_gen_adaptive_agent :
    ∀ (Args σ : Type) (stepsize_class agent_class : AgentClass Args σ)
      (args : Args) (s : σ),
      ((genAdaptiveAgent stepsize_class agent_class).name
          = "Adaptive (" ++ stepsize_class.name ++ ") " ++ agent_class.name)
      ∧ ((genAdaptiveAgent stepsize_class agent_class).randomize_parameters args s
          = ((agent_class.randomize_parameters args s).1
              ++ (stepsize_class.randomize_parameters args
                    (agent_class.randomize_parameters args s).2).1,
             (stepsize_class.randomize_parameters args
                (agent_class.randomize_parameters args s).2).2)) :=
  fun _ _ _ _ _ _ => ⟨rfl, rfl⟩

/-- C8: for AlphaBounds, starting from `alpha` reinitialized to `1.0`
by `init_stepsize`, `alpha` never exceeds its previous value on any call
of any call sequence, since each call takes the minimum of the current
`alpha` and `1/|dot(traces, gamma*phi_tp - phi_t)|`. -/
theorem C8_alphabounds_nonincreasing :
    ∀ (n : ℕ) (gamma : ℚ) (ins : ℕ → RLIn n) (k : ℕ),
      (AlphaBounds.stateAt gamma ins 0).alpha = 1
      ∧ (AlphaBounds.stateAt gamma ins (k + 1)).alpha
          ≤ (AlphaBounds.stateAt gamma ins k).alpha := by
  intro n gamma ins k
  refine ⟨rfl, ?_⟩
  show (AlphaBounds.step gamma (AlphaBounds.stateAt gamma ins k) (ins k)).1.alpha
      ≤ (AlphaBounds.stateAt gamma ins k).alpha
  simp only [AlphaBounds.step, AlphaBounds.rescale_update]
  split
  · exact le_refl _
  · exact min_le_left _ _

/-- RProp never writes `last_update` after `init_stepsize` zeroes it,
and never changes the two eta parameters. -/
theorem rprop_last_update_eq {n : ℕ} (ins : ℕ → RLIn n)
    (alpha eta_low eta_high : ℚ) :
    ∀ k, (RProp.stateAt ins alpha eta_low eta_high k).last_update = vzero n
      ∧ (RProp.stateAt ins alpha eta_low eta_high k).eta_low = eta_low
      ∧ (RProp.stateAt ins alpha eta_low eta_high k).eta_high = eta_high := by
  intro k
  induction k with
  | zero => exact ⟨rfl, rfl, rfl⟩
  | succ k ih =>
      obtain ⟨ih1, ih2, ih3⟩ := ih
      refine ⟨?_, ?_, ?_⟩
      · simpa [RProp.stateAt, RProp.step, RProp.rescale_update] using ih1
      · simpa [RProp.stateAt, RProp.step, RProp.rescale_update] using ih2
      · simpa [RProp.stateAt, RProp.step, RProp.rescale_update] using ih3

/-- C6: RProp's `last_update` is zeroed by `init_stepsize` and never
written by `rescale_update`, so after any number of calls it is still
all-zero, the sign test `last_update * delta * traces <= 0` holds at
every component on every call, and every call returns
`eta_low * descent_direction`, with `step_sizes` left at `eta_low`
everywhere (no component ever receives `eta_high`). -/
theorem C6_rprop_always_eta_low :
    ∀ (n : ℕ) (ins : ℕ → RLIn n) (alpha eta_low eta_high : ℚ) (k : ℕ),
      (RProp.stateAt ins alpha eta_low eta_high k).last_update = vzero n
      ∧ (∀ i, (RProp.stateAt ins alpha eta_low eta_high k).last_update i
          * (ins k).delta * (ins k).traces i ≤ 0)
      ∧ (RProp.outAt ins alpha eta_low eta_high k
          = fun i => eta_low * (ins k).dd i)
      ∧ (RProp.stateAt ins alpha eta_low eta_high (k + 1)).step_sizes
          = vconst n eta_low := by
  intro n ins alpha eta_low eta_high k
  obtain ⟨h, hl, _⟩ := rprop_last_update_eq ins alpha eta_low eta_high k
  refine ⟨h, fun i => ?_, ?_, ?_⟩
  · rw [h]
    simp [vzero, vconst]
  · show (RProp.step (RProp.stateAt ins alpha eta_low eta_high k) (ins k)).2
        = fun i => eta_low * (ins k).dd i
    funext i
    simp [RProp.step, RProp.rescale_update, vmul, h, hl, vzero, vconst]
  · show (RProp.step (RProp.stateAt ins alpha eta_low eta_high k)
        (ins k)).1.step_sizes = vconst n eta_low
    funext i
    simp [RProp.step, RProp.rescale_update, h, hl, vzero, vconst]

/-- C2: for each of the twelve strategies, `init_stepsize` followed by
one `rescale_update` with an all-zero descent direction (and arbitrary
shape-matched `phi_t`, `phi_tp`, `delta`, `reward`, parameters, and
interpretations of the irrational numeric primitives) returns the
all-zero direction of the same shape.  Order: Fixed, GHS, McClains,
STC, RProp, Autostep, AlphaBounds, AdagradFull, AdagradDiagonal,
Almeida, vSGD, InvMaxEigen. -/
theorem C2_zero_descent_roundtrip :
    (∀ (n : ℕ) (alpha : ℚ) (phi_t phi_tp : V n) (delta reward : ℚ),
      (AdaptiveStepSize.rescale_update (AdaptiveStepSize.init_stepsize n alpha)
        phi_t phi_tp delta reward (vzero n)).2 = vzero n)
    ∧ (∀ (n : ℕ) (alpha ghs_a : ℚ) (phi_t phi_tp : V n) (delta reward : ℚ),
      (GHS.rescale_update alpha (GHS.init_stepsize n alpha ghs_a)
        phi_t phi_tp delta reward (vzero n)).2 = vzero n)
    ∧ (∀ (n : ℕ) (alpha mcclain_a : ℚ) (phi_t phi_tp : V n) (delta reward : ℚ),
      (McClains.rescale_update (McClains.init_stepsize n alpha mcclain_a)
        phi_t phi_tp delta reward (vzero n)).2 = vzero n)
    ∧ (∀ (n : ℕ) (alpha stc_c stc_N : ℚ) (phi_t phi_tp : V n) (delta reward : ℚ),
      (STC.rescale_update (STC.init_stepsize n alpha stc_c stc_N)
        phi_t phi_tp delta reward (vzero n)).2 = vzero n)
    ∧ (∀ (n : ℕ) (alpha el eh : ℚ) (traces phi_t phi_tp : V n) (delta reward : ℚ),
      (RProp.rescale_update traces (RProp.init_stepsize n alpha el eh)
        phi_t phi_tp delta reward (vzero n)).2 = vzero n)
    ∧ (∀ (n : ℕ) (expF : ℚ → ℚ) (alpha mu tau : ℚ) (phi_t phi_tp : V n)
        (delta reward : ℚ),
      (Autostep.rescale_update expF (Autostep.init_stepsize n alpha mu tau)
        phi_t phi_tp delta reward (vzero n)).2 = vzero n)
    ∧ (∀ (n : ℕ) (gamma : ℚ) (traces phi_t phi_tp : V n) (delta reward : ℚ),
      (AlphaBounds.rescale_update gamma traces (AlphaBounds.init_stepsize n)
        phi_t phi_tp delta reward (vzero n)).2 = vzero n)
    ∧ (∀ (n : ℕ) (smInvF : Mat n → V n → V n → ℚ → Mat n) (sqrtmF : Mat n → Mat n)
        (sqrtF : ℚ → ℚ) (alpha precond : ℚ) (phi_t phi_tp : V n)
        (delta reward : ℚ),
      (AdagradFull.rescale_update smInvF sqrtmF sqrtF
        (AdagradFull.init_stepsize n alpha precond)
        phi_t phi_tp delta reward (vzero n)).2 = vzero n)
    ∧ (∀ (n : ℕ) (sqrtF : ℚ → ℚ) (alpha : ℚ) (phi_t phi_tp : V n)
        (delta reward : ℚ),
      (AdagradDiagonal.rescale_update sqrtF alpha
        (AdagradDiagonal.init_stepsize n alpha)
        phi_t phi_tp delta reward (vzero n)).2 = vzero n)
    ∧ (∀ (n : ℕ) (alpha ga sa : ℚ) (phi_t phi_tp : V n) (delta reward : ℚ),
      (AlmeidaAdaptive.rescale_update (AlmeidaAdaptive.init_stepsize n alpha ga sa)
        phi_t phi_tp delta reward (vzero n)).2 = vzero n)
    ∧ (∀ (n : ℕ) (gamma alpha initmeta : ℚ) (slowstart : ℤ)
        (phi_t phi_tp : V n) (delta reward : ℚ),
      (VSGDQ.rescale_update gamma (VSGDQ.init_stepsize n alpha initmeta slowstart)
        phi_t phi_tp delta reward (vzero n)).2 = vzero n)
    ∧ (∀ (n : ℕ) (normF : V n → ℚ) (fresh e0 : V n)
        (lecun_gamma lecun_alpha threshold : ℚ) (weights : V n) (gamma alpha : ℚ)
        (phi_t phi_tp : V n) (delta reward : ℚ),
      (InvMaxEigen.rescale_update normF fresh lecun_gamma lecun_alpha threshold
        weights gamma (InvMaxEigen.init_stepsize n normF alpha e0)
        phi_t phi_tp delta reward (vzero n)).2 = vzero n) := by
  refine ⟨?_, ?_, ?_, ?_, ?_, ?_, ?_, ?_, ?_, ?_, ?_, ?_⟩
  · intro n alpha phi_t phi_tp delta reward
    exact vmul_vzero _
  · intro n alpha ghs_a phi_t phi_tp delta reward
    exact vmul_vzero _
  · intro n alpha mcclain_a phi_t phi_tp delta reward
    exact vmul_vzero _
  · intro n alpha stc_c stc_N phi_t phi_tp delta reward
    exact vmul_vzero _
  · intro n alpha el eh traces phi_t phi_tp delta reward
    exact vmul_vzero _
  · intro n expF alpha mu tau phi_t phi_tp delta reward
    exact vmul_vzero _
  · intro n gamma traces phi_t phi_tp delta reward
    exact vmul_vzero _
  · intro n smInvF sqrtmF sqrtF alpha precond phi_t phi_tp delta reward
    funext i
    simp only [AdagradFull.rescale_update, AdagradFull.init_stepsize, vmul,
      vzero, vconst, matvec]
    split <;> simp [vconst]
  · intro n sqrtF alpha phi_t phi_tp delta reward
    exact vmul_vzero _
  · intro n alpha ga sa phi_t phi_tp delta reward
    exact vmul_vzero _
  · intro n gamma alpha initmeta slowstart phi_t phi_tp delta reward
    exact vmul_vzero _
  · intro n normF fresh e0 lg la th weights gamma alpha phi_t phi_tp delta reward
    simp only [InvMaxEigen.rescale_update, InvMaxEigen.init_stepsize]
    split <;> exact vmul_vzero _

/-- The GHS counter after `k` calls is `k + 1`, and `ghs_param` never
changes. -/
theorem ghs_counter_eq {n : ℕ} (ins : ℕ → RLIn n) (alpha ghs_a : ℚ) :
    ∀ k, (GHS.stateAt ins alpha ghs_a k).ghs_counter = k + 1
      ∧ (GHS.stateAt ins alpha ghs_a k).ghs_param = ghs_a := by
  intro k
  induction k with
  | zero => exact ⟨rfl, rfl⟩
  | succ k ih =>
      obtain ⟨ih1, ih2⟩ := ih
      constructor
      · simp [GHS.stateAt, GHS.step, GHS.rescale_update, ih1]
      · simpa [GHS.stateAt, GHS.step, GHS.rescale_update] using ih2

/-- Constant input stream for the GHS end-to-end scenario:
`descent_direction = [1, 1, 1]` on every call. -/
def ghsIn3 : ℕ → RLIn 3 := fun _ => { zeroIn 3 with dd := vconst 3 1 }

/-- C3: for GHS, the factor filled into `step_sizes` on the `t`-th
call is `alpha * ghs_a / (ghs_a + t - 1)` (here with `t = k + 1`), it
equals `alpha` exactly on the first call, it is weakly decreasing in the
counter for `ghs_a > 0` and `alpha >= 0`, the output is that factor
times the descent direction, and with `ghs_a = 10`, `alpha = 0.1` and
`descent_direction = [1,1,1]` three successive calls return the
constant arrays `0.1`, `0.1*10/11 = 1/11` and `0.1*10/12 = 1/12`. -/
theorem C3_ghs_factor (n : ℕ) (ins : ℕ → RLIn n) (alpha ghs_a : ℚ)
    (ha : 0 < ghs_a) (hal : 0 ≤ alpha) :
    (∀ k : ℕ, (GHS.stateAt ins alpha ghs_a (k + 1)).step_sizes
        = vconst n (alpha * ghs_a / (ghs_a + k)))
    ∧ (GHS.stateAt ins alpha ghs_a 1).step_sizes = vconst n alpha
    ∧ (∀ k : ℕ, alpha * ghs_a / (ghs_a + (k + 1 : ℕ))
        ≤ alpha * ghs_a / (ghs_a + (k : ℕ)))
    ∧ (∀ k : ℕ, GHS.outAt ins alpha ghs_a k
        = fun i => alpha * ghs_a / (ghs_a + k) * (ins k).dd i)
    ∧ (GHS.outAt ghsIn3 (1/10) 10 0 = vconst 3 (1/10)
        ∧ GHS.outAt ghsIn3 (1/10) 10 1 = vconst 3 (1/11)
        ∧ GHS.outAt ghsIn3 (1/10) 10 2 = vconst 3 (1/12)) := by
  have key : ∀ k : ℕ, (GHS.stateAt ins alpha ghs_a (k + 1)).step_sizes
      = vconst n (alpha * ghs_a / (ghs_a + k)) := by
    intro k
    obtain ⟨h1, h2⟩ := ghs_counter_eq ins alpha ghs_a k
    show (GHS.step alpha (GHS.stateAt ins alpha ghs_a k) (ins k)).1.step_sizes
        = vconst n (alpha * ghs_a / (ghs_a + k))
    simp only [GHS.step, GHS.rescale_update, h1, h2]
    push_cast
    ring_nf
  refine ⟨key, ?_, ?_, ?_, ?_, ?_, ?_⟩
  · have := key 0
    simpa [mul_div_assoc, div_self (ne_of_gt ha)] using this
  · intro k
    have hd : (0:ℚ) < ghs_a + k := by positivity
    apply div_le_div_of_nonneg_left (mul_nonneg hal (le_of_lt ha)) hd
    push_cast
    linarith
  · intro k
    obtain ⟨h1, h2⟩ := ghs_counter_eq ins alpha ghs_a k
    funext i
    simp only [GHS.outAt, GHS.step, GHS.rescale_update, h1, h2, vmul, vconst]
    congr 2
    push_cast
    ring_nf
  · funext i
    norm_num [GHS.outAt, GHS.stateAt, GHS.step, GHS.rescale_update,
      GHS.init_stepsize, vmul, vconst, ghsIn3, zeroIn]
  · funext i
    norm_num [GHS.outAt, GHS.stateAt, GHS.step, GHS.rescale_update,
      GHS.init_stepsize, vmul, vconst, ghsIn3, zeroIn]
  · funext i
    norm_num [GHS.outAt, GHS.stateAt, GHS.step, GHS.rescale_update,
      GHS.init_stepsize, vmul, vconst, ghsIn3, zeroIn]

/-- C3 witness: the GHS factor theorem applied at `alpha = 0.1`,
`ghs_a = 10`, extracting the first-call factor. -/
theorem C3_ghs_factor_witness :
    (GHS.stateAt ghsIn3 (1/10) 10 1).step_sizes = vconst 3 (1/10) :=
  (C3_ghs_factor 3 ghsIn3 (1/10) 10 (by norm_num) (by norm_num)).2.1

/-- Under `0 < a <= 1` and `a <= alpha`, McClains keeps `alpha >= a` and
never changes `mcclain_param`. -/
theorem mcclains_invariant {n : ℕ} (ins : ℕ → RLIn n) (alpha a : ℚ)
    (ha1 : a ≤ 1) (hle : a ≤ alpha) :
    ∀ k, a ≤ (McClains.stateAt ins alpha a k).alpha
      ∧ (McClains.stateAt ins alpha a k).mcclain_param = a := by
  intro k
  induction k with
  | zero =>
      constructor
      · show a ≤ (McClains.init_stepsize n alpha a).alpha
        rw [McClains.init_stepsize, if_neg (not_lt.mpr hle)]
        exact hle
      · show (McClains.init_stepsize n alpha a).mcclain_param = a
        rw [McClains.init_stepsize, if_neg (not_lt.mpr hle)]
  | succ k ih =>
      obtain ⟨ih1, ih2⟩ := ih
      constructor
      · show a ≤ (McClains.step (McClains.stateAt ins alpha a k) (ins k)).1.alpha
        simp only [McClains.step, McClains.rescale_update, ih2]
        set x := (McClains.stateAt ins alpha a k).alpha with hx
        have hd : (0:ℚ) < 1 + x - a := by linarith
        rw [le_div_iff₀ hd]
        nlinarith [mul_nonneg (sub_nonneg.mpr ih1) (sub_nonneg.mpr ha1)]
      · simpa [McClains.stateAt, McClains.step, McClains.rescale_update] using ih2

/-- C7 (amended): for McClains, when `0 < mcclain_a < alpha` AND
`mcclain_a <= 1`, the scalar factor applied by successive
`rescale_update` calls is monotonically non-increasing across the call
sequence.  (The original claim omitted `mcclain_a <= 1`; see the
counterexample.) -/
theorem C7_mcclains_amended (n : ℕ) (ins : ℕ → RLIn n) (alpha a : ℚ)
    (h1 : 0 < a) (h2 : a < alpha) (h3 : a ≤ 1) :
    ∀ k, McClains.factorAt ins alpha a (k + 1) ≤ McClains.factorAt ins alpha a k := by
  intro k
  obtain ⟨hk1, hk2⟩ := mcclains_invariant ins alpha a h3 (le_of_lt h2) k
  show (McClains.step (McClains.stateAt ins alpha a k) (ins k)).1.alpha
      ≤ (McClains.stateAt ins alpha a k).alpha
  simp only [McClains.step, McClains.rescale_update, hk2]
  apply div_le_self (by linarith) (by linarith)

/-- C7 counterexample: with `mcclain_a = 2 < alpha = 3` (both
positive, satisfying the claim's hypotheses), the factors of the first
three calls are `3`, `3/2`, `3`: the factor of the third call strictly
exceeds that of the second, so the sequence is not non-increasing. -/
theorem C7_mcclains_counterexample :
    ((0:ℚ) < 2 ∧ (2:ℚ) < 3)
    ∧ McClains.factorAt (fun _ => zeroIn 1) 3 2 1
        < McClains.factorAt (fun _ => zeroIn 1) 3 2 2 := by
  have e1 : McClains.factorAt (fun _ => zeroIn 1) 3 2 1 = 3/2 := by
    norm_num [McClains.factorAt, McClains.stateAt, McClains.step,
      McClains.rescale_update, McClains.init_stepsize]
  have e2 : McClains.factorAt (fun _ => zeroIn 1) 3 2 2 = 3 := by
    norm_num [McClains.factorAt, McClains.stateAt, McClains.step,
      McClains.rescale_update, McClains.init_stepsize]
  rw [e1, e2]
  norm_num

/-- C7 witness: the amended theorem applied at the default parameter
`mcclain_a = 0.01` and `alpha = 0.1`. -/
theorem C7_mcclains_witness :
    McClains.factorAt (fun _ => zeroIn 1) (1/10) (1/100) 1
      ≤ McClains.factorAt (fun _ => zeroIn 1) (1/10) (1/100) 0 :=
  C7_mcclains_amended 1 (fun _ => zeroIn 1) (1/10) (1/100)
    (by norm_num) (by norm_num) (by norm_num) 0

/-- One AdagradDiagonal call bumps the counter by one. -/
theorem adagradDiag_step_counter {n : ℕ} (f : ℚ → ℚ) (a : ℚ)
    (s : AdagradDiagonal.State n) (inp : RLIn n) :
    (AdagradDiagonal.step f a s inp).1.adagrad_counter = s.adagrad_counter + 1 :=
  rfl

/-- One AdagradDiagonal call adds the squared gradient into `h`. -/
theorem adagradDiag_step_h {n : ℕ} (f : ℚ → ℚ) (a : ℚ)
    (s : AdagradDiagonal.State n) (inp : RLIn n) (i : Fin n) :
    (AdagradDiagonal.step f a s inp).1.h i = s.h i + inp.dd i ^ 2 :=
  rfl

/-- The step size an AdagradDiagonal call leaves at component `i`. -/
theorem adagradDiag_step_sizes {n : ℕ} (f : ℚ → ℚ) (a : ℚ)
    (s : AdagradDiagonal.State n) (inp : RLIn n) (i : Fin n) :
    (AdagradDiagonal.step f a s inp).1.step_sizes i
      = if s.adagrad_counter + 1 > 1 then
          (if s.h i + inp.dd i ^ 2 ≠ 0 then
            a * (f (s.adagrad_counter + 1) / f (s.h i + inp.dd i ^ 2))
          else a)
        else s.step_sizes i := by
  simp only [AdagradDiagonal.step, AdagradDiagonal.rescale_update]
  split <;> rfl

/-- The AdagradDiagonal counter after `k` calls is `k`. -/
theorem adagradDiag_counter_eq {n : ℕ} (f : ℚ → ℚ) (ins : ℕ → RLIn n)
    (alpha : ℚ) :
    ∀ k, (AdagradDiagonal.stateAt f ins alpha k).adagrad_counter = (k : ℚ) := by
  intro k
  induction k with
  | zero => rfl
  | succ k ih =>
      show (AdagradDiagonal.step f alpha (AdagradDiagonal.stateAt f ins alpha k)
          (ins k)).1.adagrad_counter = _
      rw [adagradDiag_step_counter, ih]
      push_cast
      ring

/-- The gradient stream refuting the AdagradDiagonal monotonicity claim:
nonzero on every call, entries `1,1,1,1,1,1, 1/6, 1/3, 1/3`. -/
def c4dd : ℕ → ℚ
  | 6 => 1/6
  | 7 => 1/3
  | 8 => 1/3
  | _ => 1

/-- Input stream carrying `c4dd` as the descent direction. -/
def c4ins (k : ℕ) : RLIn 1 := { zeroIn 1 with dd := vconst 1 (c4dd k) }

theorem c4_trace_facts :
    (AdagradDiagonal.stateAt Rat.sqrt c4ins 1 4).h 0 = 4
    ∧ (AdagradDiagonal.stateAt Rat.sqrt c4ins 1 9).h 0 = 25/4
    ∧ (AdagradDiagonal.stateAt Rat.sqrt c4ins 1 4).step_sizes 0 = 1
    ∧ (AdagradDiagonal.stateAt Rat.sqrt c4ins 1 9).step_sizes 0 = 6/5 := by
  have hstep : ∀ k, AdagradDiagonal.stateAt Rat.sqrt c4ins 1 (k+1)
      = (AdagradDiagonal.step Rat.sqrt 1
          (AdagradDiagonal.stateAt Rat.sqrt c4ins 1 k) (c4ins k)).1 :=
    fun k => rfl
  have hdd : ∀ k, (c4ins k).dd 0 = c4dd k := fun k => rfl
  have h0 : (AdagradDiagonal.stateAt Rat.sqrt c4ins 1 0).h 0 = 0 := rfl
  have h1 : (AdagradDiagonal.stateAt Rat.sqrt c4ins 1 1).h 0 = 1 := by
    rw [hstep, adagradDiag_step_h, h0, hdd]; norm_num [c4dd]
  have h2 : (AdagradDiagonal.stateAt Rat.sqrt c4ins 1 2).h 0 = 2 := by
    rw [hstep, adagradDiag_step_h, h1, hdd]; norm_num [c4dd]
  have h3 : (AdagradDiagonal.stateAt Rat.sqrt c4ins 1 3).h 0 = 3 := by
    rw [hstep, adagradDiag_step_h, h2, hdd]; norm_num [c4dd]
  have h4 : (AdagradDiagonal.stateAt Rat.sqrt c4ins 1 4).h 0 = 4 := by
    rw [hstep, adagradDiag_step_h, h3, hdd]; norm_num [c4dd]
  have h5 : (AdagradDiagonal.stateAt Rat.sqrt c4ins 1 5).h 0 = 5 := by
    rw [hstep, adagradDiag_step_h, h4, hdd]; norm_num [c4dd]
  have h6 : (AdagradDiagonal.stateAt Rat.sqrt c4ins 1 6).h 0 = 6 := by
    rw [hstep, adagradDiag_step_h, h5, hdd]; norm_num [c4dd]
  have h7 : (AdagradDiagonal.stateAt Rat.sqrt c4ins 1 7).h 0 = 217/36 := by
    rw [hstep, adagradDiag_step_h, h6, hdd]; norm_num [c4dd]
  have h8 : (AdagradDiagonal.stateAt Rat.sqrt c4ins 1 8).h 0 = 221/36 := by
    rw [hstep, adagradDiag_step_h, h7, hdd]; norm_num [c4dd]
  have h9 : (AdagradDiagonal.stateAt Rat.sqrt c4ins 1 9).h 0 = 25/4 := by
    rw [hstep, adagradDiag_step_h, h8, hdd]; norm_num [c4dd]
  have sq4 : Rat.sqrt 4 = 2 := by
    rw [show (4:ℚ) = 2 * 2 by norm_num, Rat.sqrt_eq]; norm_num
  have sq9 : Rat.sqrt 9 = 3 := by
    rw [show (9:ℚ) = 3 * 3 by norm_num, Rat.sqrt_eq]; norm_num
  have sq254 : Rat.sqrt (25/4) = 5/2 := by
    rw [show (25/4:ℚ) = (5/2) * (5/2) by norm_num, Rat.sqrt_eq]; norm_num
  have c3 := adagradDiag_counter_eq Rat.sqrt c4ins 1 3
  have c8 := adagradDiag_counter_eq Rat.sqrt c4ins 1 8
  have s4 : (AdagradDiagonal.stateAt Rat.sqrt c4ins 1 4).step_sizes 0 = 1 := by
    rw [hstep, adagradDiag_step_sizes, c3, h3, hdd]
    norm_num [c4dd, sq4]
  have s9 : (AdagradDiagonal.stateAt Rat.sqrt c4ins 1 9).step_sizes 0 = 6/5 := by
    rw [hstep, adagradDiag_step_sizes, c8, h8, hdd]
    norm_num [c4dd]
    rw [sq254]
    norm_num
  exact ⟨h4, h9, s4, s9⟩

/-- C4 counterexample: shape `(1,)`, `alpha = 1`, gradient entries
`1,1,1,1,1,1,1/6,1/3,1/3` (all nonzero).  The accumulator `h` grows from
`4` (after call 4) to `25/4` (after call 9), yet the step size grows
from `1` to `6/5`: it is not non-increasing.  `numpy.sqrt` is
instantiated with `Rat.sqrt`, which agrees exactly with the real (and
IEEE-double) square root at the three points that decide the comparison
(`4`, `9`, `25/4 = 6.25`); intermediate step sizes are recomputed from
scratch each call and do not influence later ones. -/
theorem C4_adagrad_diag_counterexample :
    List.map c4dd (List.range 9) = [1, 1, 1, 1, 1, 1, 1/6, 1/3, 1/3]
    ∧ (AdagradDiagonal.stateAt Rat.sqrt c4ins 1 4).h 0 = 4
    ∧ (AdagradDiagonal.stateAt Rat.sqrt c4ins 1 9).h 0 = 25/4
    ∧ (AdagradDiagonal.stateAt Rat.sqrt c4ins 1 4).step_sizes 0 = 1
    ∧ (AdagradDiagonal.stateAt Rat.sqrt c4ins 1 9).step_sizes 0 = 6/5
    ∧ (1:ℚ) < 6/5 := by
  obtain ⟨h4, h9, s4, s9⟩ := c4_trace_facts
  exact ⟨rfl, h4, h9, s4, s9, by norm_num⟩

/-- C4 (amended): for AdagradDiagonal, (a) the first `rescale_update`
call returns `alpha * descent_direction` with `step_sizes` left at
`alpha` (the `counter > 1` branch is not taken); (b) on a later call
(counter branch taken), for a component with nonzero accumulator the
new step size `alpha*sqrt(counter+1)/sqrt(h+d^2)` is less than or equal
to the previous `alpha*sqrt(counter)/sqrt(h)` exactly when the new
squared gradient entry `d^2` is at least the running mean `h/counter`
(for any `sqrtF` that is an exact nonnegative square root at the four
relevant points); so the step size need not shrink as `h` grows, and
(c) on the concrete trace of the counterexample it increases from
`1` (call 4) to `6/5` (call 9) while `h` grows. -/
theorem C4_adagrad_diag_amended :
    (∀ (n : ℕ) (sqrtF : ℚ → ℚ) (alpha : ℚ) (phi_t phi_tp : V n)
        (delta reward : ℚ) (dd : V n),
      ((AdagradDiagonal.rescale_update sqrtF alpha
          (AdagradDiagonal.init_stepsize n alpha)
          phi_t phi_tp delta reward dd).2 = fun i => alpha * dd i)
      ∧ (AdagradDiagonal.rescale_update sqrtF alpha
          (AdagradDiagonal.init_stepsize n alpha)
          phi_t phi_tp delta reward dd).1.step_sizes = vconst n alpha)
    ∧ (∀ (sqrtF : ℚ → ℚ) (alpha c h0 d : ℚ) (s : AdagradDiagonal.State 1)
        (phi_t phi_tp : V 1) (delta reward : ℚ),
      s.adagrad_counter = c → s.h 0 = h0 →
      s.step_sizes 0 = alpha * (sqrtF c / sqrtF h0) →
      1 < c + 1 → 0 < alpha →
      0 < sqrtF (c + 1) → sqrtF (c + 1) ^ 2 = c + 1 →
      0 < sqrtF (h0 + d ^ 2) → sqrtF (h0 + d ^ 2) ^ 2 = h0 + d ^ 2 →
      0 < sqrtF c → sqrtF c ^ 2 = c →
      0 < sqrtF h0 → sqrtF h0 ^ 2 = h0 →
      ((AdagradDiagonal.rescale_update sqrtF alpha s phi_t phi_tp delta reward
          (vconst 1 d)).1.step_sizes 0 ≤ s.step_sizes 0 ↔ h0 ≤ c * d ^ 2))
    ∧ ((AdagradDiagonal.stateAt Rat.sqrt c4ins 1 4).step_sizes 0 = 1
        ∧ (AdagradDiagonal.stateAt Rat.sqrt c4ins 1 9).step_sizes 0 = 6/5
        ∧ (AdagradDiagonal.stateAt Rat.sqrt c4ins 1 4).h 0
            < (AdagradDiagonal.stateAt Rat.sqrt c4ins 1 9).h 0
        ∧ (AdagradDiagonal.stateAt Rat.sqrt c4ins 1 4).step_sizes 0
            < (AdagradDiagonal.stateAt Rat.sqrt c4ins 1 9).step_sizes 0) := by
  refine ⟨?_, ?_, ?_⟩
  · intro n sqrtF alpha phi_t phi_tp delta reward dd
    constructor
    · funext i
      simp only [AdagradDiagonal.rescale_update, AdagradDiagonal.init_stepsize,
        vmul]
      rw [if_neg (by norm_num)]
      rfl
    · funext i
      simp only [AdagradDiagonal.rescale_update, AdagradDiagonal.init_stepsize]
      rw [if_neg (by norm_num)]
  · intro sqrtF alpha c h0 d s phi_t phi_tp delta reward hc hh hs hc1 hal
      hA hA2 hB hB2 hC hC2 hD hD2
    have hh0pos : 0 < h0 + d ^ 2 := by nlinarith [hB, hB2]
    have hstep : (AdagradDiagonal.rescale_update sqrtF alpha s phi_t phi_tp
        delta reward (vconst 1 d)).1.step_sizes 0
        = alpha * (sqrtF (c + 1) / sqrtF (h0 + d ^ 2)) := by
      have e := adagradDiag_step_sizes sqrtF alpha s
        ⟨phi_t, phi_tp, delta, reward, vconst 1 d, vzero 1⟩ 0
      simp only [vconst] at e
      rw [hc, hh] at e
      show (AdagradDiagonal.step sqrtF alpha s
        ⟨phi_t, phi_tp, delta, reward, vconst 1 d, vzero 1⟩).1.step_sizes 0 = _
      rw [e, if_pos hc1, if_pos (ne_of_gt hh0pos)]
    rw [hstep, hs, mul_le_mul_left hal, div_le_div_iff₀ hB hD,
      ← pow_le_pow_iff_left₀ (by positivity) (by positivity) (two_ne_zero),
      mul_pow, mul_pow, hA2, hB2, hC2, hD2]
    constructor <;> intro h <;> nlinarith [h]
  · obtain ⟨h4, h9, s4, s9⟩ := c4_trace_facts
    refine ⟨s4, s9, ?_, ?_⟩
    · rw [h4, h9]; norm_num
    · rw [s4, s9]; norm_num

/-- C4 witness: the amended criterion applied at the concrete state
with counter `225/64`, accumulator `9/16`, gradient entry `1` and
`sqrtF = Rat.sqrt` (exact at `225/64`, `289/64`, `9/16`, `25/16`). -/
theorem C4_adagrad_diag_witness :
    ((AdagradDiagonal.rescale_update Rat.sqrt 1
        (⟨vconst 1 (5/2), vconst 1 (9/16), 225/64⟩ : AdagradDiagonal.State 1)
        (vzero 1) (vzero 1) 0 0 (vconst 1 1)).1.step_sizes 0 ≤ (5/2 : ℚ))
      ↔ ((9/16 : ℚ) ≤ 225/64 * 1 ^ 2) := by
  have sqA : Rat.sqrt (289/64) = 17/8 := by
    rw [show (289/64:ℚ) = (17/8) * (17/8) by norm_num, Rat.sqrt_eq]; norm_num
  have sqB : Rat.sqrt (25/16) = 5/4 := by
    rw [show (25/16:ℚ) = (5/4) * (5/4) by norm_num, Rat.sqrt_eq]; norm_num
  have sqC : Rat.sqrt (225/64) = 15/8 := by
    rw [show (225/64:ℚ) = (15/8) * (15/8) by norm_num, Rat.sqrt_eq]; norm_num
  have sqD : Rat.sqrt (9/16) = 3/4 := by
    rw [show (9/16:ℚ) = (3/4) * (3/4) by norm_num, Rat.sqrt_eq]; norm_num
  have h := C4_adagrad_diag_amended.2.1 Rat.sqrt 1 (225/64) (9/16) 1
    (⟨vconst 1 (5/2), vconst 1 (9/16), 225/64⟩ : AdagradDiagonal.State 1)
    (vzero 1) (vzero 1) 0 0 rfl rfl
    (by show vconst 1 (5/2) 0 = _; rw [sqC, sqD]; norm_num [vconst])
    (by norm_num) (by norm_num)
    (by rw [show (225/64 + 1 : ℚ) = 289/64 by norm_num, sqA]; norm_num)
    (by rw [show (225/64 + 1 : ℚ) = 289/64 by norm_num, sqA]; norm_num)
    (by rw [show (9/16 + 1 ^ 2 : ℚ) = 25/16 by norm_num, sqB]; norm_num)
    (by rw [show (9/16 + 1 ^ 2 : ℚ) = 25/16 by norm_num, sqB]; norm_num)
    (by rw [sqC]; norm_num) (by rw [sqC]; norm_num)
    (by rw [sqD]; norm_num) (by rw [sqD]; norm_num)
  simpa [vconst] using h

/-- The C1 failing input: shape `(1,)`, `phi_t = phi_tp = [0]`,
`delta = reward = 0`, `descent_direction = [0]`. -/
def c1in : Fin 1 → FF := fun _ => fof 0

/-- vSGD state after `init_stepsize` with `alpha = 0.1`,
`vsgd_initmeta = 100` (its default) and `vsgd_slowstart = 0`. -/
def c1s0 : VSGDF.State 1 := VSGDF.init_stepsize 1 (1/10) 100 0

/-- State after the first call on the failing input (`gamma = 1`). -/
def c1s1 : VSGDF.State 1 :=
  (VSGDF.rescale_update 1 c1s0 c1in c1in (fof 0) (fof 0) c1in).1

/-- State after the second call on the failing input. -/
def c1s2 : VSGDF.State 1 :=
  (VSGDF.rescale_update 1 c1s1 c1in c1in (fof 0) (fof 0) c1in).1

/-- C1: the claimed invariant fails for vSGD.  With
`vsgd_slowstart = 0` (a value its own randomization range includes),
`vsgd_initmeta = 100` (the default), shape `(1,)` and the finite inputs
`phi_t = phi_tp = [0]`, `delta = reward = 0`,
`descent_direction = [0]`: the first call stores a well-defined
`step_sizes` (the `denom == 0` guard works) but stores a non-finite
value (IEEE `0/0 = NaN`) into the meta-counter `t`, because the update
`t *= clip(-((g**2/v) - 1))` divides by `v = 0` with no guard; the
second call then stores a non-finite `step_sizes` entry, since
`NaN == 0` is false and the `denom == 0` guard does not catch it. -/
theorem C1_vsgd_meta_rate_nan :
    c1s1.step_sizes 0 = some 0 ∧ c1s1.t 0 = none
      ∧ c1s2.step_sizes 0 = none := by
  have e1 : c1s1.step_sizes 0 = some 0 := by
    norm_num [c1s1, c1s0, c1in, VSGDF.rescale_update, VSGDF.init_stepsize,
      fof, fadd, fmul, fsub, fneg, fdiv, fsq, fclipMax1, fclipMeta, Option.bind]
  have e2 : c1s1.t 0 = none := by
    norm_num [c1s1, c1s0, c1in, VSGDF.rescale_update, VSGDF.init_stepsize,
      fof, fadd, fmul, fsub, fneg, fdiv, fsq, fclipMax1, fclipMeta, Option.bind]
  have eg : c1s1.g 0 = some 0 := by
    norm_num [c1s1, c1s0, c1in, VSGDF.rescale_update, VSGDF.init_stepsize,
      fof, fadd, fmul, fsub, fneg, fdiv, fsq, fclipMax1, fclipMeta, Option.bind]
  have ev : c1s1.v 0 = some 0 := by
    norm_num [c1s1, c1s0, c1in, VSGDF.rescale_update, VSGDF.init_stepsize,
      fof, fadd, fmul, fsub, fneg, fdiv, fsq, fclipMax1, fclipMeta, Option.bind]
  have eh : c1s1.h 0 = some 0 := by
    norm_num [c1s1, c1s0, c1in, VSGDF.rescale_update, VSGDF.init_stepsize,
      fof, fadd, fmul, fsub, fneg, fdiv, fsq, fclipMax1, fclipMeta, Option.bind]
  have es : c1s1.slow_start = -1 := by
    norm_num [c1s1, c1s0, VSGDF.rescale_update, VSGDF.init_stepsize]
  have e3 : c1s2.step_sizes 0 = none := by
    norm_num [c1s2, VSGDF.rescale_update, e2, eg, ev, eh, es, c1in,
      fof, fadd, fmul, fsub, fneg, fdiv, fsq, fclipMax1, fclipMeta, Option.bind]
  exact ⟨e1, e2, e3⟩
